import Mathlib

/-!
Verification of the reels video-generation pipeline (src/Reels) against its
natural-language specification.  The Python sources are shallowly embedded:
per-frame pixel geometry is modelled with exact integers and rationals
(Python floats become rationals, `int(...)` becomes truncation toward zero,
`//` becomes integer floor division on nonnegative operands), lists model
numpy arrays and Python lists, and `Option` models a possibly-unassigned
local variable.
-/

namespace Reels

/-- Python `int(...)` applied to a real-valued expression truncates toward
zero; on rationals this is the floor for nonnegative inputs and the ceiling
for negative ones. -/
def pyInt (q : ℚ) : ℤ :=
  if 0 ≤ q then ⌊q⌋ else ⌈q⌉

theorem pyInt_le {q : ℚ} {n : ℤ} (h : q ≤ (n : ℚ)) : pyInt q ≤ n := by
  unfold pyInt
  split
  · exact (Int.floor_le_floor h).trans (Int.floor_intCast n).le
  · exact Int.ceil_le.mpr h

theorem le_pyInt {n : ℤ} {q : ℚ} (h : (n : ℚ) ≤ q) : n ≤ pyInt q := by
  unfold pyInt
  split
  · exact Int.le_floor.mpr h
  · exact_mod_cast h.trans (Int.le_ceil q)

theorem pyInt_nonneg {q : ℚ} (h : 0 ≤ q) : 0 ≤ pyInt q :=
  le_pyInt (by exact_mod_cast h)

theorem pyInt_int_add {n : ℤ} (hn : 0 ≤ n) (q : ℚ) (h : 0 ≤ q) :
    pyInt ((n : ℚ) + q) = n + pyInt q := by
  unfold pyInt
  rw [if_pos h, if_pos (by exact add_nonneg (by exact_mod_cast hn) h), Int.floor_int_add]

/-- Output resolution width configured in ReelsEngine.__init__
(self.target_size = (1080, 1920)). -/
def targetW : ℤ := 1080

/-- Output resolution height configured in ReelsEngine.__init__. -/
def targetH : ℤ := 1920

/-- Crop window handed to PIL Image.crop, as (left, top, right, bottom). -/
structure CropRect where
  left : ℤ
  top : ℤ
  right : ℤ
  bottom : ℤ
deriving DecidableEq

/-- A per-frame result (resampledWidth, resampledHeight, crop window) is
good when the crop window measures exactly the configured output
resolution and lies inside the resampled frame. -/
abbrev cropOK (res : ℤ × ℤ × CropRect) : Prop :=
  res.2.2.right - res.2.2.left = targetW ∧
  res.2.2.bottom - res.2.2.top = targetH ∧
  0 ≤ res.2.2.left ∧ 0 ≤ res.2.2.top ∧
  res.2.2.right ≤ res.1 ∧ res.2.2.bottom ≤ res.2.1

/-- Embedding of the zoom_in branch of ReelsEngine._apply_ken_burns
(reels_engine.py:394-417).  The incoming frame has the configured target
size (the clip was center-cropped in _create_clip); the frame is resampled
by the zoom factor and center-cropped back to the frame size. -/
def kenBurnsZoomIn (duration intensity t : ℚ) : ℤ × ℤ × CropRect :=
  let zoom := 1 + t / duration * intensity
  let newH := pyInt ((targetH : ℚ) * zoom)
  let newW := pyInt ((targetW : ℚ) * zoom)
  let left := (newW - targetW) / 2
  let top := (newH - targetH) / 2
  (newW, newH, ⟨left, top, left + targetW, top + targetH⟩)

/-- Embedding of the zoom_out branch of ReelsEngine._apply_ken_burns
(reels_engine.py:419-440). -/
def kenBurnsZoomOut (duration intensity t : ℚ) : ℤ × ℤ × CropRect :=
  let zoom := (1 + intensity) - t / duration * intensity
  let newH := pyInt ((targetH : ℚ) * zoom)
  let newW := pyInt ((targetW : ℚ) * zoom)
  let left := (newW - targetW) / 2
  let top := (newH - targetH) / 2
  (newW, newH, ⟨left, top, left + targetW, top + targetH⟩)

/-- Pan directions of ReelsEngine._apply_ken_burns and
_apply_zoom_pan_combo. -/
inductive PanDir
  | left
  | right
  | up
  | down
deriving DecidableEq

/-- Embedding of the pan branches of ReelsEngine._apply_ken_burns
(reels_engine.py:442-501).  The clip is first resized by 1 + intensity
(clip_scaled), so the frame reaching the effect has the scaled size; the
effect then crops a target-size window at a progress-dependent offset,
with the boundary checks of lines 486-495 reproduced literally. -/
def kenBurnsPan (dir : PanDir) (duration intensity t : ℚ) : ℤ × ℤ × CropRect :=
  let w := pyInt ((targetW : ℚ) * (1 + intensity))
  let h := pyInt ((targetH : ℚ) * (1 + intensity))
  let panAmount :=
    match dir with
    | .left | .right => pyInt ((targetW : ℚ) * intensity)
    | .up | .down => pyInt ((targetH : ℚ) * intensity)
  let progress := t / duration
  let offX : ℤ :=
    match dir with
    | .left => pyInt ((panAmount : ℚ) * (1 - progress))
    | .right => pyInt ((panAmount : ℚ) * progress)
    | .up | .down => 0
  let offY : ℤ :=
    match dir with
    | .up => pyInt ((panAmount : ℚ) * (1 - progress))
    | .down => pyInt ((panAmount : ℚ) * progress)
    | .left | .right => 0
  let right1 := if offX + targetW > w then w else offX + targetW
  let left1 := if offX + targetW > w then w - targetW else offX
  let bottom1 := if offY + targetH > h then h else offY + targetH
  let top1 := if offY + targetH > h then h - targetH else offY
  let left2 := if left1 < 0 then 0 else left1
  let top2 := if top1 < 0 then 0 else top1
  (w, h, ⟨left2, top2, right1, bottom1⟩)

/-- Diagonal directions drawn by random.choice in the diagonal branch of
ReelsEngine._apply_ken_burns (reels_engine.py:505). -/
inductive DiagDir
  | topLeft
  | topRight
  | bottomLeft
  | bottomRight
deriving DecidableEq

/-- Embedding of the diagonal branch of ReelsEngine._apply_ken_burns
(reels_engine.py:503-541): zoom plus a crop offset interpolated along both
axes according to the chosen corner. -/
def kenBurnsDiagonal (dir : DiagDir) (duration intensity t : ℚ) :
    ℤ × ℤ × CropRect :=
  let progress := t / duration
  let zoom := 1 + progress * intensity
  let newH := pyInt ((targetH : ℚ) * zoom)
  let newW := pyInt ((targetW : ℚ) * zoom)
  let fx : ℚ :=
    match dir with
    | .topLeft | .bottomLeft => 1 - progress
    | .topRight | .bottomRight => progress
  let fy : ℚ :=
    match dir with
    | .topLeft | .topRight => 1 - progress
    | .bottomLeft | .bottomRight => progress
  let left := pyInt (((newW - targetW : ℤ) : ℚ) * fx)
  let top := pyInt (((newH - targetH : ℤ) : ℚ) * fy)
  (newW, newH, ⟨left, top, left + targetW, top + targetH⟩)

/-- Embedding of ReelsEngine._apply_circular_motion
(reels_engine.py:646-701).  The clip is resized by 1.2, the crop center
moves on a circle of radius 50, so the offsets int(50 cos θ) and
int(50 sin θ) always lie in [-50, 50]; we take them as explicit integer
arguments.  The final crop uses (left, top, left + target_w,
top + target_h) after the boundary adjustment of lines 692-695. -/
def circularMotion (offX offY : ℤ) : ℤ × ℤ × CropRect :=
  let w := pyInt ((targetW : ℚ) * (12 / 10))
  let h := pyInt ((targetH : ℚ) * (12 / 10))
  let cx := w / 2 + offX
  let cy := h / 2 + offY
  let l0 := max 0 (cx - targetW / 2)
  let t0 := max 0 (cy - targetH / 2)
  let r0 := min w (l0 + targetW)
  let b0 := min h (t0 + targetH)
  let l1 := if r0 - l0 < targetW then max 0 (r0 - targetW) else l0
  let t1 := if b0 - t0 < targetH then max 0 (b0 - targetH) else t0
  (w, h, ⟨l1, t1, l1 + targetW, t1 + targetH⟩)

/-- Embedding of ReelsEngine._apply_handheld (reels_engine.py:776-821).
The clip is resized by 1.05 and a target-size window is cropped around the
center jittered by random.randint(-5, 5) offsets, clamped with
max(0, min(center - target/2, size - target)). -/
def handheldMotion (offX offY : ℤ) : ℤ × ℤ × CropRect :=
  let w := pyInt ((targetW : ℚ) * (105 / 100))
  let h := pyInt ((targetH : ℚ) * (105 / 100))
  let cx := w / 2 + offX
  let cy := h / 2 + offY
  let l := max 0 (min (cx - targetW / 2) (w - targetW))
  let t := max 0 (min (cy - targetH / 2) (h - targetH))
  (w, h, ⟨l, t, l + targetW, t + targetH⟩)

/-- Embedding of the output dimensions of ReelsEngine._apply_3d_rotation
(reels_engine.py:597-644).  The angle is direction * 15 * sin(pi *
progress); we abstract sin(pi * progress) as an argument.  When the
shrunken width is positive the function returns zeros_like(frame) with a
centered band copied in, otherwise the frame itself: in both cases the
output has the dimensions of the incoming target-size frame. -/
def rotation3dDims (direction : ℤ) (sinVal : ℚ) : ℤ × ℤ :=
  let angle := (direction : ℚ) * 15 * sinVal
  let scaleFactor := 1 - |angle| / 100
  let newW := pyInt ((targetW : ℚ) * scaleFactor)
  if 0 < newW then (targetW, targetH) else (targetW, targetH)

/-- Embedding of ReelsEngine._apply_zoom_pan_combo
(reels_engine.py:703-774): a zoom (in or out) composed with a pan along a
random axis, with the explicit clamping of lines 766-768. -/
def zoomPanCombo (panDir : PanDir) (zoomIn : Bool) (duration intensity t : ℚ) :
    ℤ × ℤ × CropRect :=
  let progress := t / duration
  let zoom := if zoomIn then 1 + progress * intensity
              else (1 + intensity) - progress * intensity
  let newH := pyInt ((targetH : ℚ) * zoom)
  let newW := pyInt ((targetW : ℚ) * zoom)
  let panAmount := pyInt (((min (newW - targetW) (newH - targetH) : ℤ) : ℚ) * (3 / 10))
  let l0 : ℤ :=
    match panDir with
    | .left => pyInt ((panAmount : ℚ) * (1 - progress))
    | .right => pyInt ((panAmount : ℚ) * progress)
    | .up | .down => (newW - targetW) / 2
  let t0 : ℤ :=
    match panDir with
    | .up => pyInt ((panAmount : ℚ) * (1 - progress))
    | .down => pyInt ((panAmount : ℚ) * progress)
    | .left | .right => (newH - targetH) / 2
  let l := max 0 (min l0 (newW - targetW))
  let t1 := max 0 (min t0 (newH - targetH))
  (newW, newH, ⟨l, t1, l + targetW, t1 + targetH⟩)

section MotionLemmas

variable {duration intensity t : ℚ}

theorem kenBurnsZoomIn_ok (hD : 0 < duration) (hI : 0 ≤ intensity)
    (ht : 0 ≤ t) (htD : t < duration) :
    cropOK (kenBurnsZoomIn duration intensity t) := by
  have hp : 0 ≤ t / duration * intensity :=
    mul_nonneg (div_nonneg ht hD.le) hI
  have hW : targetW ≤ pyInt ((targetW : ℚ) * (1 + t / duration * intensity)) :=
    le_pyInt (by nlinarith [show ((targetW : ℤ) : ℚ) = 1080 by norm_num [targetW]])
  have hH : targetH ≤ pyInt ((targetH : ℚ) * (1 + t / duration * intensity)) :=
    le_pyInt (by nlinarith [show ((targetH : ℤ) : ℚ) = 1920 by norm_num [targetH]])
  simp only [kenBurnsZoomIn, cropOK]
  refine ⟨by ring, by ring, ?_, ?_, ?_, ?_⟩ <;> omega

theorem kenBurnsZoomOut_ok (hD : 0 < duration) (hI : 0 ≤ intensity)
    (ht : 0 ≤ t) (htD : t < duration) :
    cropOK (kenBurnsZoomOut duration intensity t) := by
  have hp1 : t / duration < 1 := (div_lt_one hD).mpr htD
  have hz : (1 : ℚ) ≤ (1 + intensity) - t / duration * intensity := by nlinarith
  have hW : targetW ≤ pyInt ((targetW : ℚ) *
      ((1 + intensity) - t / duration * intensity)) :=
    le_pyInt (by nlinarith [show ((targetW : ℤ) : ℚ) = 1080 by norm_num [targetW]])
  have hH : targetH ≤ pyInt ((targetH : ℚ) *
      ((1 + intensity) - t / duration * intensity)) :=
    le_pyInt (by nlinarith [show ((targetH : ℤ) : ℚ) = 1920 by norm_num [targetH]])
  simp only [kenBurnsZoomOut, cropOK]
  refine ⟨by ring, by ring, ?_, ?_, ?_, ?_⟩ <;> omega

theorem kenBurnsPan_ok (dir : PanDir) (hD : 0 < duration) (hI : 0 ≤ intensity)
    (ht : 0 ≤ t) (htD : t < duration) :
    cropOK (kenBurnsPan dir duration intensity t) := by
  have hp0 : 0 ≤ t / duration := div_nonneg ht hD.le
  have hp1 : t / duration ≤ 1 := ((div_lt_one hD).mpr htD).le
  have hWI : 0 ≤ (targetW : ℚ) * intensity := by
    have : ((targetW : ℤ) : ℚ) = 1080 := by norm_num [targetW]
    nlinarith
  have hHI : 0 ≤ (targetH : ℚ) * intensity := by
    have : ((targetH : ℤ) : ℚ) = 1920 := by norm_num [targetH]
    nlinarith
  have hw : pyInt ((targetW : ℚ) * (1 + intensity))
      = targetW + pyInt ((targetW : ℚ) * intensity) := by
    rw [show (targetW : ℚ) * (1 + intensity)
          = (targetW : ℚ) + (targetW : ℚ) * intensity by ring]
    exact pyInt_int_add (by norm_num [targetW]) _ hWI
  have hh : pyInt ((targetH : ℚ) * (1 + intensity))
      = targetH + pyInt ((targetH : ℚ) * intensity) := by
    rw [show (targetH : ℚ) * (1 + intensity)
          = (targetH : ℚ) + (targetH : ℚ) * intensity by ring]
    exact pyInt_int_add (by norm_num [targetH]) _ hHI
  have hpaW : 0 ≤ pyInt ((targetW : ℚ) * intensity) := pyInt_nonneg hWI
  have hpaH : 0 ≤ pyInt ((targetH : ℚ) * intensity) := pyInt_nonneg hHI
  have off_bounds : ∀ pa : ℤ, 0 ≤ pa → ∀ f : ℚ, 0 ≤ f → f ≤ 1 →
      0 ≤ pyInt ((pa : ℚ) * f) ∧ pyInt ((pa : ℚ) * f) ≤ pa := by
    intro pa hpa f hf0 hf1
    constructor
    · exact pyInt_nonneg (mul_nonneg (by exact_mod_cast hpa) hf0)
    · exact pyInt_le (by nlinarith [show (0 : ℚ) ≤ (pa : ℚ) by exact_mod_cast hpa])
  cases dir with
  | left =>
      obtain ⟨h1, h2⟩ := off_bounds _ hpaW (1 - t / duration) (by linarith) (by linarith)
      simp only [kenBurnsPan, cropOK]
      rw [hw, hh]
      split_ifs <;> refine ⟨by omega, by omega, by omega, by omega, by omega, by omega⟩
  | right =>
      obtain ⟨h1, h2⟩ := off_bounds _ hpaW (t / duration) hp0 hp1
      simp only [kenBurnsPan, cropOK]
      rw [hw, hh]
      split_ifs <;> refine ⟨by omega, by omega, by omega, by omega, by omega, by omega⟩
  | up =>
      obtain ⟨h1, h2⟩ := off_bounds _ hpaH (1 - t / duration) (by linarith) (by linarith)
      simp only [kenBurnsPan, cropOK]
      rw [hw, hh]
      split_ifs <;> refine ⟨by omega, by omega, by omega, by omega, by omega, by omega⟩
  | down =>
      obtain ⟨h1, h2⟩ := off_bounds _ hpaH (t / duration) hp0 hp1
      simp only [kenBurnsPan, cropOK]
      rw [hw, hh]
      split_ifs <;> refine ⟨by omega, by omega, by omega, by omega, by omega, by omega⟩

theorem kenBurnsDiagonal_ok (dir : DiagDir) (hD : 0 < duration)
    (hI : 0 ≤ intensity) (ht : 0 ≤ t) (htD : t < duration) :
    cropOK (kenBurnsDiagonal dir duration intensity t) := by
  have hp0 : 0 ≤ t / duration := div_nonneg ht hD.le
  have hp1 : t / duration ≤ 1 := ((div_lt_one hD).mpr htD).le
  have hp : 0 ≤ t / duration * intensity := mul_nonneg hp0 hI
  have hW : targetW ≤ pyInt ((targetW : ℚ) * (1 + t / duration * intensity)) :=
    le_pyInt (by nlinarith [show ((targetW : ℤ) : ℚ) = 1080 by norm_num [targetW]])
  have hH : targetH ≤ pyInt ((targetH : ℚ) * (1 + t / duration * intensity)) :=
    le_pyInt (by nlinarith [show ((targetH : ℤ) : ℚ) = 1920 by norm_num [targetH]])
  have off_bounds : ∀ n m : ℤ, m ≤ n → ∀ f : ℚ, 0 ≤ f → f ≤ 1 →
      0 ≤ pyInt (((n - m : ℤ) : ℚ) * f) ∧ pyInt (((n - m : ℤ) : ℚ) * f) ≤ n - m := by
    intro n m hmn f hf0 hf1
    have hnm : (0 : ℚ) ≤ ((n - m : ℤ) : ℚ) := by exact_mod_cast sub_nonneg.mpr hmn
    constructor
    · exact pyInt_nonneg (mul_nonneg hnm hf0)
    · exact pyInt_le (by nlinarith)
  cases dir with
  | topLeft =>
      obtain ⟨hx1, hx2⟩ := off_bounds _ _ hW (1 - t / duration) (by linarith) (by linarith)
      obtain ⟨hy1, hy2⟩ := off_bounds _ _ hH (1 - t / duration) (by linarith) (by linarith)
      simp only [kenBurnsDiagonal, cropOK]
      refine ⟨by omega, by omega, by omega, by omega, by omega, by omega⟩
  | topRight =>
      obtain ⟨hx1, hx2⟩ := off_bounds _ _ hW (t / duration) hp0 hp1
      obtain ⟨hy1, hy2⟩ := off_bounds _ _ hH (1 - t / duration) (by linarith) (by linarith)
      simp only [kenBurnsDiagonal, cropOK]
      refine ⟨by omega, by omega, by omega, by omega, by omega, by omega⟩
  | bottomLeft =>
      obtain ⟨hx1, hx2⟩ := off_bounds _ _ hW (1 - t / duration) (by linarith) (by linarith)
      obtain ⟨hy1, hy2⟩ := off_bounds _ _ hH (t / duration) hp0 hp1
      simp only [kenBurnsDiagonal, cropOK]
      refine ⟨by omega, by omega, by omega, by omega, by omega, by omega⟩
  | bottomRight =>
      obtain ⟨hx1, hx2⟩ := off_bounds _ _ hW (t / duration) hp0 hp1
      obtain ⟨hy1, hy2⟩ := off_bounds _ _ hH (t / duration) hp0 hp1
      simp only [kenBurnsDiagonal, cropOK]
      refine ⟨by omega, by omega, by omega, by omega, by omega, by omega⟩

theorem circularMotion_ok (offX offY : ℤ) : cropOK (circularMotion offX offY) := by
  have hw : pyInt ((targetW : ℚ) * (12 / 10)) = 1296 := by
    norm_num [pyInt, targetW]
  have hh : pyInt ((targetH : ℚ) * (12 / 10)) = 2304 := by
    norm_num [pyInt, targetH]
  have htW : targetW = 1080 := rfl
  have htH : targetH = 1920 := rfl
  simp only [circularMotion, cropOK, hw, hh]
  split_ifs <;>
    refine ⟨by omega, by omega, by omega, by omega, by omega, by omega⟩

theorem handheldMotion_ok (offX offY : ℤ) : cropOK (handheldMotion offX offY) := by
  have hw : pyInt ((targetW : ℚ) * (105 / 100)) = 1134 := by
    norm_num [pyInt, targetW]
  have hh : pyInt ((targetH : ℚ) * (105 / 100)) = 2016 := by
    norm_num [pyInt, targetH]
  have htW : targetW = 1080 := rfl
  have htH : targetH = 1920 := rfl
  simp only [handheldMotion, cropOK, hw, hh]
  refine ⟨by omega, by omega, by omega, by omega, by omega, by omega⟩

theorem rotation3dDims_target (direction : ℤ) (sinVal : ℚ) :
    rotation3dDims direction sinVal = (targetW, targetH) := by
  simp only [rotation3dDims, ite_self]

theorem zoomPanCombo_ok (panDir : PanDir) (zoomIn : Bool) (hD : 0 < duration)
    (hI : 0 ≤ intensity) (ht : 0 ≤ t) (htD : t < duration) :
    cropOK (zoomPanCombo panDir zoomIn duration intensity t) := by
  have hp0 : 0 ≤ t / duration := div_nonneg ht hD.le
  have hp1 : t / duration < 1 := (div_lt_one hD).mpr htD
  have hz : (1 : ℚ) ≤ (if zoomIn then 1 + t / duration * intensity
      else (1 + intensity) - t / duration * intensity) := by
    split
    · nlinarith
    · nlinarith
  have hW : targetW ≤ pyInt ((targetW : ℚ) * (if zoomIn then 1 + t / duration * intensity
      else (1 + intensity) - t / duration * intensity)) :=
    le_pyInt (by nlinarith [show ((targetW : ℤ) : ℚ) = 1080 by norm_num [targetW]])
  have hH : targetH ≤ pyInt ((targetH : ℚ) * (if zoomIn then 1 + t / duration * intensity
      else (1 + intensity) - t / duration * intensity)) :=
    le_pyInt (by nlinarith [show ((targetH : ℤ) : ℚ) = 1920 by norm_num [targetH]])
  cases panDir <;>
    simp only [zoomPanCombo, cropOK] <;>
    refine ⟨by omega, by omega, by omega, by omega, by omega, by omega⟩

end MotionLemmas

/-- C1: for every motion style (zoom_in, zoom_out, pan_left, pan_right,
pan_up, pan_down, diagonal, circular, handheld, 3d_rotate,
zoom_pan_combo) and every time t in [0, D) of a clip built from a source
image at the configured output resolution, the per-frame effect function
yields a crop window of exactly the target 1080 x 1920 size lying inside
the resampled frame, so every generated frame has exactly the configured
output dimensions.  Intensity is quantified over all nonnegative values,
covering the configured budgets 0.05 / 0.15 / 0.30 (and 0.1 / 0.2 / 0.3
for the combo); the random circular offsets int(50 cos), int(50 sin) and
handheld jitter randint(-5, 5) are quantified over all integers, and the
3d-rotation sine factor over all rationals. -/
theorem motion_frames_have_target_size :
    (∀ duration intensity t : ℚ, 0 < duration → 0 ≤ intensity → 0 ≤ t →
      t < duration →
      cropOK (kenBurnsZoomIn duration intensity t) ∧
      cropOK (kenBurnsZoomOut duration intensity t) ∧
      (∀ dir : PanDir, cropOK (kenBurnsPan dir duration intensity t)) ∧
      (∀ dir : DiagDir, cropOK (kenBurnsDiagonal dir duration intensity t)) ∧
      (∀ panDir : PanDir, ∀ zoomIn : Bool,
        cropOK (zoomPanCombo panDir zoomIn duration intensity t))) ∧
    (∀ offX offY : ℤ, cropOK (circularMotion offX offY)) ∧
    (∀ offX offY : ℤ, cropOK (handheldMotion offX offY)) ∧
    (∀ direction : ℤ, ∀ sinVal : ℚ,
      rotation3dDims direction sinVal = (targetW, targetH)) := by
  refine ⟨fun D I t hD hI ht htD => ⟨?_, ?_, ?_, ?_, ?_⟩, ?_, ?_, ?_⟩
  · exact kenBurnsZoomIn_ok hD hI ht htD
  · exact kenBurnsZoomOut_ok hD hI ht htD
  · exact fun dir => kenBurnsPan_ok dir hD hI ht htD
  · exact fun dir => kenBurnsDiagonal_ok dir hD hI ht htD
  · exact fun panDir zoomIn => zoomPanCombo_ok panDir zoomIn hD hI ht htD
  · exact circularMotion_ok
  · exact handheldMotion_ok
  · exact fun direction sinVal => rotation3dDims_target direction sinVal

/-- Witness for C1: the motion-style crop invariant instantiated at the
medium intensity 0.15, duration 3 s, t = 1 s, and concrete random
offsets. -/
theorem motion_frames_have_target_size_witness :
    (0 : ℚ) < 3 ∧ (0 : ℚ) ≤ 3 / 20 ∧ (0 : ℚ) ≤ 1 ∧ (1 : ℚ) < 3 ∧
    cropOK (kenBurnsZoomIn 3 (3 / 20) 1) ∧
    cropOK (kenBurnsPan PanDir.left 3 (3 / 20) 1) ∧
    cropOK (circularMotion 35 (-35)) ∧
    cropOK (handheldMotion 4 (-3)) ∧
    rotation3dDims 1 (1 / 2) = (targetW, targetH) := by
  have h := motion_frames_have_target_size
  have hmain := h.1 3 (3 / 20) 1 (by norm_num) (by norm_num) (by norm_num)
    (by norm_num)
  exact ⟨by norm_num, by norm_num, by norm_num, by norm_num, hmain.1,
    hmain.2.2.1 PanDir.left, h.2.1 35 (-35), h.2.2.1 4 (-3),
    h.2.2.2 1 (1 / 2)⟩

/-!
Clip-level model of the pipeline.  A clip records its duration, frame
size and the fade effects attached to it; moviepy FadeIn/FadeOut effects
rewrite frames in place and change neither duration nor size.
-/

/-- A video clip as handled by ReelsEngine.generate_reels: duration in
seconds, frame size, and the durations of any FadeIn / FadeOut effect
attached by _apply_transitions (0 when absent). -/
structure MClip where
  duration : ℚ
  width : ℤ
  height : ℤ
  fadeInDur : ℚ
  fadeOutDur : ℚ
deriving DecidableEq

/-- Embedding of ReelsEngine._create_clip (reels_engine.py:264-307): the
image is resampled to cover the target size, center-cropped to exactly
target_size, and the clip duration is set to config.duration_per_photo. -/
def mkPhotoClip (durationPerPhoto : ℚ) : MClip :=
  ⟨durationPerPhoto, targetW, targetH, 0, 0⟩

/-- Embedding of the fade branch of ReelsEngine._apply_transitions
(reels_engine.py:910-949 at style "fade"): each clip receives FadeIn(0.5)
when it is not the first and FadeOut(0.5) when it is not the last; the
clip duration and size are not modified and no clip is shifted or
trimmed. -/
def applyTransitionsFade (clips : List MClip) : List MClip :=
  if clips.length ≤ 1 then clips
  else
    clips.mapIdx fun i c =>
      { c with
        fadeInDur := if 0 < i then 1 / 2 else c.fadeInDur
        fadeOutDur := if i < clips.length - 1 then 1 / 2 else c.fadeOutDur }

/-- Duration of concatenate_videoclips(clips, method="compose")
(reels_engine.py:216): with no padding argument the clips are laid out
end to end, so the total duration is the sum of the clip durations. -/
def concatenateDuration (clips : List MClip) : ℚ :=
  (clips.map MClip.duration).sum

/-- Clip list produced by generate_reels for n valid images with
transitions enabled and style "fade": one photo clip per image, then the
fade pass. -/
def fadePipelineClips (n : ℕ) (durationPerPhoto : ℚ) : List MClip :=
  applyTransitionsFade (List.replicate n (mkPhotoClip durationPerPhoto))

/-- Counterexample to C2: with 3 valid images, duration_per_photo = 3 and
fade transitions, the pipeline produces 3 clips that keep their full 3 s
duration (FadeIn/FadeOut are applied in place, no clip is trimmed and no
overlap is introduced), so the concatenated length is 9 s, not the
claimed 3*3 - 2*0.5 = 8 s. -/
theorem fade_pipeline_not_eight_seconds :
    concatenateDuration (fadePipelineClips 3 3) = 9 ∧
    (9 : ℚ) ≠ 3 * 3 - 2 * (1 / 2) := by
  have hlist : fadePipelineClips 3 3 =
      [⟨3, targetW, targetH, 0, 1 / 2⟩, ⟨3, targetW, targetH, 1 / 2, 1 / 2⟩,
       ⟨3, targetW, targetH, 1 / 2, 0⟩] := rfl
  refine ⟨?_, by norm_num⟩
  rw [hlist]
  norm_num [concatenateDuration]

/-- C2 (amended): given 3 valid same-orientation images with
duration_per_photo = 3, fade transitions and zoom_in motion, the pipeline
produces exactly 3 clips, every clip keeps its full 3 s duration and the
configured 1080 x 1920 frame size, interior clip boundaries carry 0.5 s
fade-out / fade-in effects applied in place, and the concatenated video
lasts exactly 3 * 3 = 9 s: no transition overlap is subtracted. -/
theorem fade_pipeline_three_clips_nine_seconds :
    fadePipelineClips 3 3 =
      [⟨3, targetW, targetH, 0, 1 / 2⟩, ⟨3, targetW, targetH, 1 / 2, 1 / 2⟩,
       ⟨3, targetW, targetH, 1 / 2, 0⟩] ∧
    (fadePipelineClips 3 3).length = 3 ∧
    concatenateDuration (fadePipelineClips 3 3) = 3 * 3 := by
  have hlist : fadePipelineClips 3 3 =
      [⟨3, targetW, targetH, 0, 1 / 2⟩, ⟨3, targetW, targetH, 1 / 2, 1 / 2⟩,
       ⟨3, targetW, targetH, 1 / 2, 0⟩] := rfl
  refine ⟨hlist, by rw [hlist]; rfl, ?_⟩
  rw [hlist]
  norm_num [concatenateDuration]

/-!
Control-flow model of ReelsEngine.generate_reels
(reels_engine.py:106-262).  The stages that follow a nonempty clip list
(beat sync, transitions, subtitles, music) keep the pipeline on the
success path, so the observable outcome is the returned boolean together
with whether write_videofile was reached.
-/

/-- An input directory entry as seen by generate_reels: whether its
suffix is one of .jpg/.jpeg/.png, whether utils.validate_image accepts
it, and whether _create_clip succeeds on it (clip-creation failures are
caught per file and the file is skipped). -/
structure RFile where
  name : ℕ
  isImageExt : Bool
  validImage : Bool
  clipOk : Bool
deriving DecidableEq

/-- Configuration toggles of models.ReelsConfig that steer the branch
structure of generate_reels at lines 162-191. -/
structure RConfig where
  enable_ai_analysis : Bool
  enable_svd : Bool
deriving DecidableEq

/-- Files with a recognised image extension (reels_engine.py:128-132). -/
def imageFiles (files : List RFile) : List RFile :=
  files.filter (·.isImageExt)

/-- Image files that pass validate_image (reels_engine.py:139). -/
def validFiles (files : List RFile) : List RFile :=
  (imageFiles files).filter (·.validImage)

/-- Clip list built by the per-file loop at reels_engine.py:176-190 (and,
with per-file fallback, by _create_clips_with_svd): one clip per file
whose creation succeeds, failures are logged and skipped. -/
def buildClips (durationPerPhoto : ℚ) (files : List RFile) : List MClip :=
  files.filterMap fun f =>
    if f.clipOk then some (mkPhotoClip durationPerPhoto) else none

/-- Value of the local variable clips after the branch chain at
reels_engine.py:162-191, as an Option: when enable_ai_analysis is true
(whether or not the openai service imported) the chain runs the AI-
analysis or warning branch and the elif/else arms that would assign
clips are skipped, so clips stays unassigned (none). -/
def pipelineClipsOpt (cfg : RConfig) (aiAvailable : Bool)
    (durationPerPhoto : ℚ) (files : List RFile) : Option (List MClip) :=
  if cfg.enable_ai_analysis && aiAvailable then none
  else if cfg.enable_ai_analysis && !aiAvailable then none
  else if cfg.enable_svd then some (buildClips durationPerPhoto files)
  else some (buildClips durationPerPhoto files)

/-- Embedding of ReelsEngine.generate_reels.  The result is (returned
boolean, whether write_videofile was reached).  An unassigned clips
variable makes the test at line 192 raise NameError, which the
try/except at lines 258-262 converts into a False return; the empty
checks at lines 134-143 and 192-194 return False before the output
video exists. -/
def generate_reels (cfg : RConfig) (aiAvailable : Bool)
    (durationPerPhoto : ℚ) (files : List RFile) : Bool × Bool :=
  if (imageFiles files).isEmpty then (false, false)
  else if (validFiles files).isEmpty then (false, false)
  else
    match pipelineClipsOpt cfg aiAvailable durationPerPhoto (validFiles files) with
    | none => (false, false)
    | some clips => if clips.isEmpty then (false, false) else (true, true)

/-- C3: whenever enable_ai_analysis is set and the openai service module
imports successfully, generate_reels returns False for every input
directory, including one full of valid images, and writes no output
video: the clip-building arms are elifs chained behind the AI-analysis
test, so the local clips variable is never assigned and the subsequent
emptiness check raises, landing in the top-level handler. -/
theorem ai_analysis_always_fails (cfg : RConfig) (aiAvailable : Bool)
    (durationPerPhoto : ℚ) (files : List RFile)
    (hai : cfg.enable_ai_analysis = true) (havail : aiAvailable = true) :
    generate_reels cfg aiAvailable durationPerPhoto files = (false, false) := by
  unfold generate_reels pipelineClipsOpt
  simp [hai, havail]

/-- Witness for C3: a directory with one valid image and AI analysis
enabled still yields (False, no video written). -/
theorem ai_analysis_always_fails_witness :
    (RConfig.mk true false).enable_ai_analysis = true ∧
    generate_reels ⟨true, false⟩ true 3 [⟨0, true, true, true⟩] =
      (false, false) :=
  ⟨rfl, ai_analysis_always_fails ⟨true, false⟩ true 3 [⟨0, true, true, true⟩]
    rfl rfl⟩

/-- C9: with zero valid images (no image extensions at all, or every
candidate failing validation), or on any run whose produced clip list is
empty, generate_reels reports failure and write_videofile is never
reached, so no output video is produced. -/
theorem no_valid_images_aborts (cfg : RConfig) (aiAvailable : Bool)
    (durationPerPhoto : ℚ) (files : List RFile)
    (h : validFiles files = [] ∨
      pipelineClipsOpt cfg aiAvailable durationPerPhoto (validFiles files) =
        some []) :
    generate_reels cfg aiAvailable durationPerPhoto files = (false, false) := by
  unfold generate_reels
  rcases h with h | h
  · rw [h]
    simp
  · rw [h]
    simp

/-- Witness for C9: a directory holding one corrupt image file (fails
validation) and one text file (wrong extension) aborts with no output. -/
theorem no_valid_images_aborts_witness :
    validFiles [⟨0, true, false, true⟩, ⟨1, false, true, true⟩] = [] ∧
    generate_reels ⟨false, false⟩ false 3
      [⟨0, true, false, true⟩, ⟨1, false, true, true⟩] = (false, false) :=
  ⟨rfl, no_valid_images_aborts ⟨false, false⟩ false 3
    [⟨0, true, false, true⟩, ⟨1, false, true, true⟩] (Or.inl rfl)⟩

/-!
Pixel-level transitions from advanced_transitions.py.  A frame is a flat
list of 8-bit channel samples (frames already of dtype uint8 skip the
float conversion at the top of each function).
-/

/-- Rounding used by cv2.addWeighted when storing the double-precision
blend back into a uint8 array: round to nearest integer. -/
def cvRound (q : ℚ) : ℤ :=
  ⌊q + 1 / 2⌋

/-- Saturation of an integer result into the uint8 range [0, 255]. -/
def saturateByte (z : ℤ) : ℕ :=
  min z.toNat 255

/-- Embedding of cv2.addWeighted(src1, alpha, src2, beta, gamma) on
uint8 arrays: per sample, saturate(round(src1*alpha + src2*beta +
gamma)). -/
def addWeighted (src1 : List ℕ) (alpha : ℚ) (src2 : List ℕ)
    (beta gamma : ℚ) : List ℕ :=
  List.zipWith
    (fun p q => saturateByte (cvRound ((p : ℚ) * alpha + (q : ℚ) * beta + gamma)))
    src1 src2

/-- Embedding of apply_morph_transition (advanced_transitions.py:12-34):
an alpha cross-blend cv2.addWeighted(frame1, 1 - progress, frame2,
progress, 0). -/
def apply_morph_transition (frame1 frame2 : List ℕ) (progress : ℚ) : List ℕ :=
  addWeighted frame1 (1 - progress) frame2 progress 0

theorem cvRound_natCast (p : ℕ) : cvRound (p : ℚ) = p := by
  unfold cvRound
  rw [show ((p : ℚ) + 1 / 2) = ((p : ℤ) : ℚ) + 1 / 2 by push_cast; ring,
    Int.floor_int_add]
  norm_num

theorem saturateByte_of_le {p : ℕ} (h : p ≤ 255) : saturateByte (p : ℤ) = p := by
  unfold saturateByte
  rw [Int.toNat_natCast]
  exact min_eq_left h

/-- C4: the morph/fade compositing function is exact at the endpoints:
for equal-shaped uint8 frames, progress 0 returns frame A pixel for pixel
and progress 1 returns frame B pixel for pixel, with no rounding drift. -/
theorem morph_exact_at_endpoints (frame1 frame2 : List ℕ)
    (hlen : frame1.length = frame2.length)
    (h1 : ∀ p ∈ frame1, p ≤ 255) (h2 : ∀ p ∈ frame2, p ≤ 255) :
    apply_morph_transition frame1 frame2 0 = frame1 ∧
    apply_morph_transition frame1 frame2 1 = frame2 := by
  unfold apply_morph_transition addWeighted
  induction frame1 generalizing frame2 with
  | nil =>
      cases frame2 with
      | nil => exact ⟨rfl, rfl⟩
      | cons b m => simp at hlen
  | cons a l ih =>
      cases frame2 with
      | nil => simp at hlen
      | cons b m =>
          have ha : a ≤ 255 := h1 a (List.mem_cons_self a l)
          have hb : b ≤ 255 := h2 b (List.mem_cons_self b m)
          have hrec := ih m (by simpa using hlen)
            (fun p hp => h1 p (List.mem_cons_of_mem a hp))
            (fun p hp => h2 p (List.mem_cons_of_mem b hp))
          have e0 : ((a : ℚ) * (1 - 0) + (b : ℚ) * 0 + 0) = (a : ℚ) := by ring
          have e1 : ((a : ℚ) * (1 - 1) + (b : ℚ) * 1 + 0) = (b : ℚ) := by ring
          constructor
          · simpa [e0, cvRound_natCast, saturateByte_of_le ha] using
              congrArg (a :: ·) hrec.1
          · simpa [e1, cvRound_natCast, saturateByte_of_le hb] using
              congrArg (b :: ·) hrec.2

/-- Witness for C4: concrete three-sample frames. -/
theorem morph_exact_at_endpoints_witness :
    apply_morph_transition [0, 128, 255] [255, 0, 7] 0 = [0, 128, 255] ∧
    apply_morph_transition [0, 128, 255] [255, 0, 7] 1 = [255, 0, 7] :=
  morph_exact_at_endpoints [0, 128, 255] [255, 0, 7] rfl
    (by norm_num) (by norm_num)

/-- Membership in the circular-wipe mask
(advanced_transitions.py:81-153): a pixel at (x, y) is taken from frame B
when its distance from the center is at most max_radius * progress, with
max_radius = sqrt(w^2 + h^2) / 2.  For r = max_radius * progress and
d = dist^2, sqrt(d) <= r holds iff r is nonnegative and d <= r^2; r is
nonnegative iff progress >= 0 or the frame is degenerate (w = h = 0), and
r^2 = (w^2 + h^2) / 4 * progress^2, giving the square-free form below. -/
def wipeFromB (w h : ℤ) (center : Option (ℤ × ℤ)) (x y : ℤ)
    (progress : ℚ) : Bool :=
  let c := center.getD (w / 2, h / 2)
  decide ((0 ≤ progress ∨ (w = 0 ∧ h = 0)) ∧
    4 * (((x - c.1 : ℤ) : ℚ) ^ 2 + ((y - c.2 : ℤ) : ℚ) ^ 2) ≤
      (((w : ℚ) ^ 2 + (h : ℚ) ^ 2)) * progress ^ 2)

/-- Embedding of apply_circular_wipe_transition
(advanced_transitions.py:108-153) at one pixel position: inside the mask
the result takes frame2, outside it takes frame1. -/
def apply_circular_wipe_transition (frame1 frame2 : ℤ × ℤ → ℕ)
    (w h : ℤ) (center : Option (ℤ × ℤ)) (progress : ℚ) : ℤ × ℤ → ℕ :=
  fun pos =>
    if wipeFromB w h center pos.1 pos.2 progress then frame2 pos
    else frame1 pos

/-- C5: the circular wipe is monotonic in progress: for 0 <= p1 <= p2,
every pixel drawn from frame B at progress p1 is still drawn from frame B
at progress p2 — increasing progress never shrinks the region taken from
frame B. -/
theorem circular_wipe_monotonic (w h : ℤ) (center : Option (ℤ × ℤ))
    (x y : ℤ) (p1 p2 : ℚ) (hp1 : 0 ≤ p1) (h12 : p1 ≤ p2)
    (hmem : wipeFromB w h center x y p1 = true) :
    wipeFromB w h center x y p2 = true ∧
    ∀ frame1 frame2 : ℤ × ℤ → ℕ,
      apply_circular_wipe_transition frame1 frame2 w h center p2 (x, y) =
        frame2 (x, y) := by
  simp only [wipeFromB, decide_eq_true_eq] at hmem
  obtain ⟨-, hle⟩ := hmem
  have hp2 : 0 ≤ p2 := hp1.trans h12
  have hsq : p1 ^ 2 ≤ p2 ^ 2 := by nlinarith
  have hs : (0 : ℚ) ≤ (w : ℚ) ^ 2 + (h : ℚ) ^ 2 := by positivity
  have hmono : wipeFromB w h center x y p2 = true := by
    simp only [wipeFromB, decide_eq_true_eq]
    exact ⟨Or.inl hp2, hle.trans (by nlinarith)⟩
  exact ⟨hmono, fun frame1 frame2 => by
    simp [apply_circular_wipe_transition, hmono]⟩

/-- Witness for C5: on a 1080 x 1920 frame with default center, the pixel
at (600, 1000) is inside the wipe at progress 1/2, stays inside at
progress 3/4, and the composited pixel is taken from frame B. -/
theorem circular_wipe_monotonic_witness :
    (0 : ℚ) ≤ 1 / 2 ∧ (1 / 2 : ℚ) ≤ 3 / 4 ∧
    wipeFromB 1080 1920 none 600 1000 (1 / 2) = true ∧
    wipeFromB 1080 1920 none 600 1000 (3 / 4) = true ∧
    apply_circular_wipe_transition (fun _ => 0) (fun _ => 7) 1080 1920 none
      (3 / 4) (600, 1000) = 7 := by
  have hm : wipeFromB 1080 1920 none 600 1000 (1 / 2) = true := by
    simp only [wipeFromB, Option.getD, decide_eq_true_eq]
    norm_num
  have h := circular_wipe_monotonic 1080 1920 none 600 1000 (1 / 2) (3 / 4)
    (by norm_num) (by norm_num) hm
  exact ⟨by norm_num, by norm_num, hm, h.1, h.2 (fun _ => 0) (fun _ => 7)⟩

/-!
Beat detection and clip retiming from audio_sync.py.  The energies list
abstracts the per-window RMS energies computed at lines 39-48; the
emission loop at lines 53-63 only reads these energies, the threshold and
the minimum interval.
-/

/-- Embedding of the emission loop of detect_beats
(audio_sync.py:53-63): window i lives at time i * 0.05; a window whose
energy exceeds the threshold emits a beat when at least min_interval
seconds have passed since the previously emitted beat, starting from
last_beat_time = -min_interval. -/
def beatScan (threshold minInterval : ℚ) : ℕ → ℚ → List ℚ → List ℚ
  | _, _, [] => []
  | i, lastBeat, e :: rest =>
    let time := (i : ℚ) * (5 / 100)
    if threshold < e ∧ minInterval ≤ time - lastBeat then
      time :: beatScan threshold minInterval (i + 1) time rest
    else
      beatScan threshold minInterval (i + 1) lastBeat rest

/-- Beat timestamps produced by detect_beats from the per-window
energies. -/
def detect_beats (energies : List ℚ) (threshold minInterval : ℚ) : List ℚ :=
  beatScan threshold minInterval 0 (-minInterval) energies

theorem beatScan_mem_ge {threshold minInterval : ℚ} (hm : 0 ≤ minInterval) :
    ∀ (es : List ℚ) (i : ℕ) (lastBeat x : ℚ),
      x ∈ beatScan threshold minInterval i lastBeat es →
      lastBeat + minInterval ≤ x := by
  intro es
  induction es with
  | nil => intro i lastBeat x hx; simp [beatScan] at hx
  | cons e rest ih =>
      intro i lastBeat x hx
      simp only [beatScan] at hx
      split_ifs at hx with hc
      · rcases List.mem_cons.mp hx with rfl | hx'
        · linarith [hc.2]
        · have := ih (i + 1) ((i : ℚ) * (5 / 100)) x hx'
          linarith [hc.2]
      · exact ih (i + 1) lastBeat x hx

theorem beatScan_chain {threshold minInterval : ℚ} (hm : 0 ≤ minInterval) :
    ∀ (es : List ℚ) (i : ℕ) (lastBeat : ℚ),
      List.Chain' (fun a b => a + minInterval ≤ b)
        (beatScan threshold minInterval i lastBeat es) := by
  intro es
  induction es with
  | nil => intro i lastBeat; simp [beatScan]
  | cons e rest ih =>
      intro i lastBeat
      simp only [beatScan]
      split_ifs with hc
      · refine List.chain'_cons'.mpr ⟨fun b hb => ?_, ih (i + 1) _⟩
        exact beatScan_mem_ge hm rest (i + 1) _ b (List.mem_of_mem_head? hb)
      · exact ih (i + 1) lastBeat

/-- C6: for every energies list, threshold and min_interval > 0, the beat
timestamps are strictly increasing and consecutive beats are at least
min_interval apart. -/
theorem detect_beats_min_interval (energies : List ℚ)
    (threshold minInterval : ℚ) (hm : 0 < minInterval) :
    List.Chain' (fun a b => a + minInterval ≤ b)
      (detect_beats energies threshold minInterval) ∧
    List.Pairwise (· < ·) (detect_beats energies threshold minInterval) := by
  have hchain := @beatScan_chain threshold minInterval hm.le energies 0
    (-minInterval)
  refine ⟨hchain, ?_⟩
  haveI : IsTrans ℚ (fun a b => a + minInterval ≤ b) :=
    ⟨fun a b c hab hbc => by
      have hab' : a + minInterval ≤ b := hab
      have hbc' : b + minInterval ≤ c := hbc
      show a + minInterval ≤ c
      linarith⟩
  refine (List.chain'_iff_pairwise.mp hchain).imp fun {a b} h => ?_
  have h' : a + minInterval ≤ b := h
  linarith

/-- Witness for C6: seven 50 ms windows with two loud windows far enough
apart; the invariant holds for the emitted beat list. -/
theorem detect_beats_min_interval_witness :
    (0 : ℚ) < 1 / 2 ∧
    List.Chain' (fun a b => a + 1 / 2 ≤ b)
      (detect_beats [1, 10, 1, 1, 1, 1, 1, 1, 1, 1, 1, 10] 5 (1 / 2)) ∧
    List.Pairwise (· < ·)
      (detect_beats [1, 10, 1, 1, 1, 1, 1, 1, 1, 1, 1, 10] 5 (1 / 2)) := by
  have h := detect_beats_min_interval [1, 10, 1, 1, 1, 1, 1, 1, 1, 1, 1, 10]
    5 (1 / 2) (by norm_num)
  exact ⟨by norm_num, h.1, h.2⟩

/-- Embedding of the beat-search loop of adjust_clips_to_beats
(audio_sync.py:92-97): scan the remaining beats in order, permanently
discarding those not strictly beyond current_time + 0.5, and stop at the
first qualifying beat without consuming it. -/
def nextBeatSearch (currentTime : ℚ) : List ℚ → Option ℚ × List ℚ
  | [] => (none, [])
  | b :: rest =>
    if currentTime + 1 / 2 < b then (some b, b :: rest)
    else nextBeatSearch currentTime rest

/-- Embedding of the per-clip loop of adjust_clips_to_beats
(audio_sync.py:90-109) on the clip durations: a clip that is not the last
and for which a qualifying beat exists gets duration next_beat -
current_time, otherwise it keeps its own duration; current_time advances
by the assigned duration. -/
def adjustScan : List ℚ → List ℚ → ℚ → List ℚ
  | [], _, _ => []
  | c :: cs, beatsRem, currentTime =>
    let found := nextBeatSearch currentTime beatsRem
    let dur :=
      match found.1 with
      | none => c
      | some b => if cs.isEmpty then c else b - currentTime
    dur :: adjustScan cs found.2 (currentTime + dur)

/-- Embedding of adjust_clips_to_beats (audio_sync.py:71-111) on clip
durations: an empty beat list returns the clips unchanged, otherwise the
walk starts at current_time = 0. -/
def adjust_clips_to_beats (clips beats : List ℚ) : List ℚ :=
  if beats.isEmpty then clips else adjustScan clips beats 0

/-- Restatement of the claim wording for C7: the first unused beat
strictly beyond current_time + 0.5 is the head of what remains of the
beat list after dropping (permanently) every earlier beat; the new duration of each clip
 is that beat minus current_time, falling back to the original
clip duration when no qualifying beat remains or for the final clip;
current_time advances by exactly the assigned duration. -/
def adjustSpecScan : List ℚ → List ℚ → ℚ → List ℚ
  | [], _, _ => []
  | c :: cs, beatsRem, currentTime =>
    let unused := beatsRem.dropWhile fun b => decide (b ≤ currentTime + 1 / 2)
    let dur :=
      match unused.head? with
      | none => c
      | some b => if cs.isEmpty then c else b - currentTime
    dur :: adjustSpecScan cs unused (currentTime + dur)

/-- Claim-level description of adjust_clips_to_beats: identity on an
empty beat list, otherwise the walk described in adjustSpecScan. -/
def adjustClipsSpec (clips beats : List ℚ) : List ℚ :=
  if beats.isEmpty then clips else adjustSpecScan clips beats 0

theorem nextBeatSearch_eq_dropWhile (currentTime : ℚ) (bs : List ℚ) :
    nextBeatSearch currentTime bs =
      ((bs.dropWhile fun b => decide (b ≤ currentTime + 1 / 2)).head?,
        bs.dropWhile fun b => decide (b ≤ currentTime + 1 / 2)) := by
  induction bs with
  | nil => rfl
  | cons b rest ih =>
      rw [List.dropWhile_cons]
      by_cases hb : currentTime + 1 / 2 < b
      · have hpb : decide (b ≤ currentTime + 1 / 2) = false :=
          decide_eq_false (not_le.mpr hb)
        rw [hpb]
        simp only [nextBeatSearch, if_pos hb]
        simp
      · have hpb : decide (b ≤ currentTime + 1 / 2) = true :=
          decide_eq_true (not_lt.mp hb)
        rw [hpb]
        simp only [nextBeatSearch, if_neg hb]
        simpa using ih

theorem adjustScan_eq_spec :
    ∀ (clips beats : List ℚ) (currentTime : ℚ),
      adjustScan clips beats currentTime =
        adjustSpecScan clips beats currentTime := by
  intro clips
  induction clips with
  | nil => intro beats currentTime; rfl
  | cons c cs ih =>
      intro beats currentTime
      simp only [adjustScan, adjustSpecScan, nextBeatSearch_eq_dropWhile]
      exact congrArg _ (ih _ _)

/-- C7: the clip-retiming walk computes exactly the per-clip durations
described by the claim (first unused qualifying beat minus current_time,
original duration when none remains or for the final clip, current_time
advancing by the assigned duration), and an empty beat list returns the
clip list unchanged. -/
theorem adjust_clips_matches_spec (clips beats : List ℚ) :
    adjust_clips_to_beats clips beats = adjustClipsSpec clips beats ∧
    adjust_clips_to_beats clips [] = clips := by
  constructor
  · unfold adjust_clips_to_beats adjustClipsSpec
    split
    · rfl
    · exact adjustScan_eq_spec clips beats 0
  · rfl

/-!
Easing functions from easing_functions.py.  The polynomial variants are
modelled over the rationals; the sine, exponential and elastic variants
use real-valued transcendental functions, modelled over the reals.
-/

/-- linear (easing_functions.py:8). -/
def linear (t : ℚ) : ℚ := t

/-- ease_in_quad (easing_functions.py:21). -/
def ease_in_quad (t : ℚ) : ℚ := t * t

/-- ease_out_quad (easing_functions.py:28). -/
def ease_out_quad (t : ℚ) : ℚ := t * (2 - t)

/-- ease_in_out_quad (easing_functions.py:35). -/
def ease_in_out_quad (t : ℚ) : ℚ :=
  if t < 1 / 2 then 2 * t * t else -1 + (4 - 2 * t) * t

/-- ease_in_cubic (easing_functions.py:45). -/
def ease_in_cubic (t : ℚ) : ℚ := t * t * t

/-- ease_out_cubic (easing_functions.py:52): shifts t by -1 first. -/
def ease_out_cubic (t : ℚ) : ℚ := (t - 1) * (t - 1) * (t - 1) + 1

/-- ease_in_out_cubic (easing_functions.py:60). -/
def ease_in_out_cubic (t : ℚ) : ℚ :=
  if t < 1 / 2 then 4 * t * t * t
  else ((2 * t - 2) * (2 * t - 2) * (2 * t - 2) + 2) / 2

/-- ease_in_quart (easing_functions.py:71). -/
def ease_in_quart (t : ℚ) : ℚ := t * t * t * t

/-- ease_out_quart (easing_functions.py:78). -/
def ease_out_quart (t : ℚ) : ℚ := 1 - (t - 1) * (t - 1) * (t - 1) * (t - 1)

/-- ease_in_out_quart (easing_functions.py:86). -/
def ease_in_out_quart (t : ℚ) : ℚ :=
  if t < 1 / 2 then 8 * t * t * t * t
  else 1 - 8 * (t - 1) * (t - 1) * (t - 1) * (t - 1)

/-- ease_out_back (easing_functions.py:182), with c1 = 1.70158 and
c3 = c1 + 1. -/
def ease_out_back (t : ℚ) : ℚ :=
  1 + (270158 / 100000) * (t - 1) ^ 3 + (170158 / 100000) * (t - 1) ^ 2

/-- ease_in_out_back (easing_functions.py:192), with
c2 = 1.70158 * 1.525. -/
def ease_in_out_back (t : ℚ) : ℚ :=
  if t < 1 / 2 then
    ((2 * t) ^ 2 * (((259490950 / 100000000) + 1) * 2 * t
      - (259490950 / 100000000))) / 2
  else
    ((2 * t - 2) ^ 2 * (((259490950 / 100000000) + 1) * (t * 2 - 2)
      + (259490950 / 100000000)) + 2) / 2

/-- ease_in_sine (easing_functions.py:97). -/
noncomputable def ease_in_sine (t : ℝ) : ℝ :=
  1 - Real.cos (t * Real.pi / 2)

/-- ease_out_sine (easing_functions.py:104). -/
noncomputable def ease_out_sine (t : ℝ) : ℝ :=
  Real.sin (t * Real.pi / 2)

/-- ease_in_out_sine (easing_functions.py:111). -/
noncomputable def ease_in_out_sine (t : ℝ) : ℝ :=
  -(Real.cos (Real.pi * t) - 1) / 2

open Classical in
/-- ease_in_expo (easing_functions.py:118): 0 at t = 0, else
2 ^ (10 (t - 1)). -/
noncomputable def ease_in_expo (t : ℝ) : ℝ :=
  if t = 0 then 0 else (2 : ℝ) ^ (10 * (t - 1))

open Classical in
/-- ease_out_expo (easing_functions.py:125): 1 at t = 1, else
1 - 2 ^ (-10 t). -/
noncomputable def ease_out_expo (t : ℝ) : ℝ :=
  if t = 1 then 1 else 1 - (2 : ℝ) ^ (-10 * t)

open Classical in
/-- ease_in_out_expo (easing_functions.py:132). -/
noncomputable def ease_in_out_expo (t : ℝ) : ℝ :=
  if t = 0 ∨ t = 1 then t
  else if t < 1 / 2 then (2 : ℝ) ^ (20 * t - 10) / 2
  else (2 - (2 : ℝ) ^ (-20 * t + 10)) / 2

open Classical in
/-- ease_in_elastic (easing_functions.py:145), with c4 = 2 pi / 3. -/
noncomputable def ease_in_elastic (t : ℝ) : ℝ :=
  if t = 0 ∨ t = 1 then t
  else -((2 : ℝ) ^ (10 * t - 10)) *
    Real.sin ((t * 10 - 10.75) * (2 * Real.pi / 3))

open Classical in
/-- ease_out_elastic (easing_functions.py:156). -/
noncomputable def ease_out_elastic (t : ℝ) : ℝ :=
  if t = 0 ∨ t = 1 then t
  else (2 : ℝ) ^ (-10 * t) *
    Real.sin ((t * 10 - 0.75) * (2 * Real.pi / 3)) + 1

open Classical in
/-- ease_in_out_elastic (easing_functions.py:167), with
c5 = 2 pi / 4.5. -/
noncomputable def ease_in_out_elastic (t : ℝ) : ℝ :=
  if t = 0 ∨ t = 1 then t
  else if t < 1 / 2 then
    -((2 : ℝ) ^ (20 * t - 10) * Real.sin ((20 * t - 11.125) * (2 * Real.pi / 4.5))) / 2
  else
    ((2 : ℝ) ^ (-20 * t + 10) * Real.sin ((20 * t - 11.125) * (2 * Real.pi / 4.5))) / 2 + 1

theorem ease_out_back_envelope (t : ℚ) (h0 : 0 ≤ t) (h1 : t ≤ 1) :
    -(3 / 10) ≤ ease_out_back t ∧ ease_out_back t ≤ 13 / 10 := by
  unfold ease_out_back
  constructor
  · nlinarith [mul_nonneg (sub_nonneg.mpr h1) (sq_nonneg (t - 1)),
      mul_nonneg h0 (sq_nonneg (t - 1))]
  · nlinarith [sq_nonneg (t - 29 / 50), mul_nonneg h0 (sq_nonneg (t - 29 / 50)),
      sq_nonneg t, mul_nonneg (sub_nonneg.mpr h1) (sq_nonneg (t - 1)),
      sq_nonneg (t - 1)]

theorem ease_in_out_back_envelope (t : ℚ) (h0 : 0 ≤ t) (h1 : t ≤ 1) :
    -(13 / 10) ≤ ease_in_out_back t ∧ ease_in_out_back t ≤ 23 / 10 := by
  unfold ease_in_out_back
  split_ifs with h
  · constructor <;>
      nlinarith [sq_nonneg t, mul_nonneg (mul_nonneg h0 h0) h0,
        sq_nonneg (t - 1 / 4), mul_nonneg h0 (sq_nonneg (t - 1 / 4))]
  · constructor <;>
      nlinarith [sq_nonneg (t - 1),
        mul_nonneg (sub_nonneg.mpr h1) (sq_nonneg (t - 1)),
        mul_nonneg (sub_nonneg.mpr (not_lt.mp h : (1 : ℚ) / 2 ≤ t))
          (sq_nonneg (t - 1))]

theorem ease_in_elastic_envelope (t : ℝ) (h0 : 0 ≤ t) (h1 : t ≤ 1) :
    -(13 / 10) ≤ ease_in_elastic t ∧ ease_in_elastic t ≤ 23 / 10 := by
  unfold ease_in_elastic
  split_ifs with h
  · rcases h with rfl | rfl <;> norm_num
  · have hexp : (2 : ℝ) ^ (10 * t - 10) ≤ 1 :=
      Real.rpow_le_one_of_one_le_of_nonpos (by norm_num) (by linarith)
    have hpos : (0 : ℝ) < (2 : ℝ) ^ (10 * t - 10) :=
      Real.rpow_pos_of_pos (by norm_num) _
    have hs1 := Real.neg_one_le_sin ((t * 10 - 10.75) * (2 * Real.pi / 3))
    have hs2 := Real.sin_le_one ((t * 10 - 10.75) * (2 * Real.pi / 3))
    constructor <;> nlinarith

theorem ease_out_elastic_envelope (t : ℝ) (h0 : 0 ≤ t) (h1 : t ≤ 1) :
    -(13 / 10) ≤ ease_out_elastic t ∧ ease_out_elastic t ≤ 23 / 10 := by
  unfold ease_out_elastic
  split_ifs with h
  · rcases h with rfl | rfl <;> norm_num
  · have hexp : (2 : ℝ) ^ (-10 * t) ≤ 1 :=
      Real.rpow_le_one_of_one_le_of_nonpos (by norm_num) (by linarith)
    have hpos : (0 : ℝ) < (2 : ℝ) ^ (-10 * t) :=
      Real.rpow_pos_of_pos (by norm_num) _
    have hs1 := Real.neg_one_le_sin ((t * 10 - 0.75) * (2 * Real.pi / 3))
    have hs2 := Real.sin_le_one ((t * 10 - 0.75) * (2 * Real.pi / 3))
    constructor <;> nlinarith

theorem ease_in_out_elastic_envelope (t : ℝ) (h0 : 0 ≤ t) (h1 : t ≤ 1) :
    -(13 / 10) ≤ ease_in_out_elastic t ∧ ease_in_out_elastic t ≤ 23 / 10 := by
  unfold ease_in_out_elastic
  split_ifs with h hhalf
  · rcases h with rfl | rfl <;> norm_num
  · have hexp : (2 : ℝ) ^ (20 * t - 10) ≤ 1 :=
      Real.rpow_le_one_of_one_le_of_nonpos (by norm_num) (by linarith)
    have hpos : (0 : ℝ) < (2 : ℝ) ^ (20 * t - 10) :=
      Real.rpow_pos_of_pos (by norm_num) _
    have hs1 := Real.neg_one_le_sin ((20 * t - 11.125) * (2 * Real.pi / 4.5))
    have hs2 := Real.sin_le_one ((20 * t - 11.125) * (2 * Real.pi / 4.5))
    constructor <;> nlinarith
  · have hexp : (2 : ℝ) ^ (-20 * t + 10) ≤ 1 :=
      Real.rpow_le_one_of_one_le_of_nonpos (by norm_num)
        (by push_neg at hhalf; linarith)
    have hpos : (0 : ℝ) < (2 : ℝ) ^ (-20 * t + 10) :=
      Real.rpow_pos_of_pos (by norm_num) _
    have hs1 := Real.neg_one_le_sin ((20 * t - 11.125) * (2 * Real.pi / 4.5))
    have hs2 := Real.sin_le_one ((20 * t - 11.125) * (2 * Real.pi / 4.5))
    constructor <;> nlinarith

/-- C8: every non-overshoot easing function in the registry (linear and
the quad / cubic / quart / sine / expo in-, out- and in-out variants)
satisfies f(0) = 0 and f(1) = 1 exactly, and every overshoot style stays
within the bounded envelope [-1.3, 2.3] on [0, 1]; in particular
ease_out_back stays within [-0.3, 1.3]. -/
theorem easing_endpoints_and_envelopes :
    (linear 0 = 0 ∧ linear 1 = 1) ∧
    (ease_in_quad 0 = 0 ∧ ease_in_quad 1 = 1) ∧
    (ease_out_quad 0 = 0 ∧ ease_out_quad 1 = 1) ∧
    (ease_in_out_quad 0 = 0 ∧ ease_in_out_quad 1 = 1) ∧
    (ease_in_cubic 0 = 0 ∧ ease_in_cubic 1 = 1) ∧
    (ease_out_cubic 0 = 0 ∧ ease_out_cubic 1 = 1) ∧
    (ease_in_out_cubic 0 = 0 ∧ ease_in_out_cubic 1 = 1) ∧
    (ease_in_quart 0 = 0 ∧ ease_in_quart 1 = 1) ∧
    (ease_out_quart 0 = 0 ∧ ease_out_quart 1 = 1) ∧
    (ease_in_out_quart 0 = 0 ∧ ease_in_out_quart 1 = 1) ∧
    (ease_in_sine 0 = 0 ∧ ease_in_sine 1 = 1) ∧
    (ease_out_sine 0 = 0 ∧ ease_out_sine 1 = 1) ∧
    (ease_in_out_sine 0 = 0 ∧ ease_in_out_sine 1 = 1) ∧
    (ease_in_expo 0 = 0 ∧ ease_in_expo 1 = 1) ∧
    (ease_out_expo 0 = 0 ∧ ease_out_expo 1 = 1) ∧
    (ease_in_out_expo 0 = 0 ∧ ease_in_out_expo 1 = 1) ∧
    (∀ t : ℚ, 0 ≤ t → t ≤ 1 →
      -(3 / 10) ≤ ease_out_back t ∧ ease_out_back t ≤ 13 / 10) ∧
    (∀ t : ℚ, 0 ≤ t → t ≤ 1 →
      -(13 / 10) ≤ ease_in_out_back t ∧ ease_in_out_back t ≤ 23 / 10) ∧
    (∀ t : ℝ, 0 ≤ t → t ≤ 1 →
      -(13 / 10) ≤ ease_in_elastic t ∧ ease_in_elastic t ≤ 23 / 10) ∧
    (∀ t : ℝ, 0 ≤ t → t ≤ 1 →
      -(13 / 10) ≤ ease_out_elastic t ∧ ease_out_elastic t ≤ 23 / 10) ∧
    (∀ t : ℝ, 0 ≤ t → t ≤ 1 →
      -(13 / 10) ≤ ease_in_out_elastic t ∧ ease_in_out_elastic t ≤ 23 / 10) := by
  refine ⟨⟨rfl, rfl⟩, ?_, ?_, ?_, ?_, ?_, ?_, ?_, ?_, ?_, ?_, ?_, ?_, ?_, ?_,
    ?_, ease_out_back_envelope, ease_in_out_back_envelope,
    ease_in_elastic_envelope, ease_out_elastic_envelope,
    ease_in_out_elastic_envelope⟩
  · constructor <;> norm_num [ease_in_quad]
  · constructor <;> norm_num [ease_out_quad]
  · constructor <;> norm_num [ease_in_out_quad]
  · constructor <;> norm_num [ease_in_cubic]
  · constructor <;> norm_num [ease_out_cubic]
  · constructor <;> norm_num [ease_in_out_cubic]
  · constructor <;> norm_num [ease_in_quart]
  · constructor <;> norm_num [ease_out_quart]
  · constructor <;> norm_num [ease_in_out_quart]
  · exact ⟨by simp [ease_in_sine], by simp [ease_in_sine, Real.cos_pi_div_two]⟩
  · exact ⟨by simp [ease_out_sine], by simp [ease_out_sine, Real.sin_pi_div_two]⟩
  · exact ⟨by simp [ease_in_out_sine], by norm_num [ease_in_out_sine, Real.cos_pi]⟩
  · exact ⟨by simp [ease_in_expo], by norm_num [ease_in_expo, Real.rpow_zero]⟩
  · exact ⟨by norm_num [ease_out_expo, Real.rpow_zero], by simp [ease_out_expo]⟩
  · exact ⟨by simp [ease_in_out_expo], by simp [ease_in_out_expo]⟩

/-- Witness for C8: the overshoot envelopes instantiated at t = 1/2. -/
theorem easing_endpoints_and_envelopes_witness :
    (0 : ℚ) ≤ 1 / 2 ∧ (1 / 2 : ℚ) ≤ 1 ∧
    (-(3 / 10) ≤ ease_out_back (1 / 2) ∧ ease_out_back (1 / 2) ≤ 13 / 10) ∧
    (-(13 / 10) ≤ ease_in_out_elastic (1 / 2) ∧
      ease_in_out_elastic (1 / 2) ≤ 23 / 10) := by
  have h := easing_endpoints_and_envelopes
  refine ⟨by norm_num, by norm_num, ?_, ?_⟩
  · exact h.2.2.2.2.2.2.2.2.2.2.2.2.2.2.2.2.1 (1 / 2) (by norm_num) (by norm_num)
  · exact h.2.2.2.2.2.2.2.2.2.2.2.2.2.2.2.2.2.2.2.2 (1 / 2) (by norm_num)
      (by norm_num)

/-!
Worker-pool preprocessing (reels_engine.py:35-76 and 1534-1558).  Paths
are abstracted as naturals.  ThreadPoolExecutor.map writes the result of each task
 into the slot of its submission index no matter in which order the
workers execute, and yields the slots in submission order; the execution
order is modelled as an arbitrary list of slot indices covering every
task (workers share no mutable state, so the final value of each slot depends
only on its own task). -/

/-- Embedding of preprocess_image_task (reels_engine.py:35-76): a file
that preprocesses successfully yields its processed output path, a file
whose preprocessing raises returns the original input path. -/
def preprocess_image_task (ok : ℕ → Bool) (processed : ℕ → ℕ) (p : ℕ) : ℕ :=
  if ok p then processed p else p

/-- One executed task of the pool: the worker that picks up submission
index i stores the result of its own task in slot i. -/
def schedStep (task : ℕ → ℕ) (tasks : List ℕ) (slots : List (Option ℕ))
    (i : ℕ) : List (Option ℕ) :=
  slots.set i (tasks[i]?.map task)

/-- Slots after the pool has executed the submissions in the given
order. -/
def runSchedule (task : ℕ → ℕ) (tasks : List ℕ) (order : List ℕ) :
    List (Option ℕ) :=
  order.foldl (schedStep task tasks) (List.replicate tasks.length none)

/-- Embedding of _preprocess_images_parallel
(reels_engine.py:1534-1558): executor.map gathers the slots in submission
order, then results that name a nonexistent file are dropped by the
res.exists() check. -/
def preprocess_images_parallel (task : ℕ → ℕ) (fsExists : ℕ → Bool)
    (tasks : List ℕ) (order : List ℕ) : List ℕ :=
  ((runSchedule task tasks order).filterMap id).filter fsExists

theorem schedStep_foldl_getElem? (task : ℕ → ℕ) (tasks : List ℕ) :
    ∀ (order : List ℕ) (init : List (Option ℕ)) (j : ℕ),
      (order.foldl (schedStep task tasks) init)[j]? =
        if j ∈ order ∧ j < init.length then some (tasks[j]?.map task)
        else init[j]? := by
  intro order
  induction order with
  | nil => intro init j; simp
  | cons i rest ih =>
      intro init j
      rw [List.foldl_cons, ih]
      by_cases hlen : j < init.length
      · by_cases hmem : j ∈ rest
        · simp [schedStep, List.length_set, hmem, hlen]
        · by_cases hij : i = j
          · subst hij
            simp [schedStep, List.length_set, hmem, hlen, List.getElem?_set]
          · have hij' : ¬(j = i) := fun hc => hij hc.symm
            simp [schedStep, List.length_set, hmem, hlen, List.getElem?_set,
              hij, hij']
      · have hnone : init[j]? = none := List.getElem?_eq_none (by omega)
        by_cases hij : i = j
        · subst hij
          simp [schedStep, List.length_set, hlen, List.getElem?_set, hnone]
        · have hij' : ¬(j = i) := fun hc => hij hc.symm
          simp [schedStep, List.length_set, hlen, List.getElem?_set, hij,
            hij', hnone]

theorem runSchedule_eq_map (task : ℕ → ℕ) (tasks order : List ℕ)
    (hcov : ∀ j, j < tasks.length → j ∈ order) :
    runSchedule task tasks order = tasks.map fun a => some (task a) := by
  refine List.ext_getElem? fun n => ?_
  rw [runSchedule, schedStep_foldl_getElem?, List.length_replicate,
    List.getElem?_map]
  by_cases hn : n < tasks.length
  · rw [if_pos ⟨hcov n hn, hn⟩, List.getElem?_eq_getElem hn]
    rfl
  · rw [if_neg (by tauto), List.getElem?_eq_none (by simpa using hn),
      List.getElem?_eq_none (le_of_not_lt hn)]
    rfl

/-- C10: for every task list, every execution order that runs each
submitted task (any worker count, any latency-induced interleaving), and
every per-item success pattern, parallel preprocessing returns exactly
one result per input in the original submission order: the k-th output is
the preprocessed file of the k-th input, or the original path of the k-th input
 when its preprocessing failed.  The filesystem check keeps every
result because each task returns a path that exists (the just-saved
output or the listed original). -/
theorem preprocess_parallel_preserves_order (ok : ℕ → Bool)
    (processed : ℕ → ℕ) (fsExists : ℕ → Bool) (tasks order : List ℕ)
    (hcov : ∀ j, j < tasks.length → j ∈ order)
    (hex : ∀ p ∈ tasks, fsExists (preprocess_image_task ok processed p) = true) :
    preprocess_images_parallel (preprocess_image_task ok processed) fsExists
        tasks order =
      tasks.map (preprocess_image_task ok processed) ∧
    ∀ k : ℕ,
      (preprocess_images_parallel (preprocess_image_task ok processed)
          fsExists tasks order)[k]? =
        tasks[k]?.map (preprocess_image_task ok processed) := by
  have hrun := runSchedule_eq_map (preprocess_image_task ok processed) tasks
    order hcov
  have hcollect : ∀ (g : ℕ → ℕ) (l : List ℕ),
      (l.map fun a => some (g a)).filterMap id = l.map g := by
    intro g l
    induction l with
    | nil => rfl
    | cons a l ih => simp [List.filterMap_cons, ih]
  have hmain : preprocess_images_parallel (preprocess_image_task ok processed)
      fsExists tasks order = tasks.map (preprocess_image_task ok processed) := by
    rw [preprocess_images_parallel, hrun, hcollect, List.filter_eq_self.mpr]
    intro b hb
    obtain ⟨p, hp, rfl⟩ := List.mem_map.mp hb
    exact hex p hp
  exact ⟨hmain, fun k => by rw [hmain, List.getElem?_map]⟩

/-- Witness for C10: three inputs executed out of order (third, first,
second) with the middle one failing preprocessing still come back in
submission order with the middle one replaced by its original path. -/
theorem preprocess_parallel_preserves_order_witness :
    (∀ j, j < 3 → j ∈ [2, 0, 1]) ∧
    preprocess_images_parallel
        (preprocess_image_task (fun p => p ≠ 20) (fun p => p + 100))
        (fun _ => true) [10, 20, 30] [2, 0, 1] =
      [110, 20, 130] := by
  have h := preprocess_parallel_preserves_order (fun p => p ≠ 20)
    (fun p => p + 100) (fun _ => true) [10, 20, 30] [2, 0, 1]
    (by decide) (by decide)
  refine ⟨by decide, ?_⟩
  rw [h.1]
  decide

end Reels
